import Mathlib

/-!
Verification of the AG-UI LangGraph adapter utilities
(`integrations/langgraph/python/ag_ui_langgraph/utils.py`) and of the
interrupt/resume behaviour described in the specification.

Python values that matter to these functions are JSON-like: `None`,
booleans, numbers, strings, lists and dicts.  We model them with the
`Json` inductive below; dicts are association lists in insertion order,
matching Python dict iteration order.  Numbers are modelled as integers
(the functions under verification never compute with floats).
-/

namespace AgUiLangGraph

/-- A JSON-like Python value.  Dicts keep insertion order, as Python does. -/
inductive Json where
  | null : Json
  | bool (b : Bool) : Json
  | num (n : Int) : Json
  | str (s : String) : Json
  | arr (elems : List Json) : Json
  | obj (fields : List (String × Json)) : Json

/-- Python truthiness of a JSON-like value (`bool(x)`). -/
def Json.truthy : Json → Bool
  | .null => false
  | .bool b => b
  | .num n => n != 0
  | .str s => s != ""
  | .arr l => !l.isEmpty
  | .obj l => !l.isEmpty

/-- `d.get(key, dflt)` on a dict given as its field list. -/
def dictGet (fields : List (String × Json)) (key : String) (dflt : Json) : Json :=
  (List.lookup key fields).getD dflt

/-- `x.get(key)` on a value that must be a dict; any other value raises
`AttributeError` in Python, which we surface as `none`. -/
def Json.objLookup : Json → String → Option Json
  | .obj fields, key => List.lookup key fields
  | _, _ => none

/-- Python errors the embedded functions can raise. -/
inductive PyErr where
  | attributeError : PyErr
  | jsonDecodeError (s : String) : PyErr
  | validationError : PyErr
  | valueError (msg : String) : PyErr
  | typeError (msg : String) : PyErr
deriving Repr, DecidableEq

/-- Extract the field list of a dict; non-dicts raise `AttributeError`
when `.get` is called on them. -/
def asObj : Json → Except PyErr (List (String × Json))
  | .obj fields => .ok fields
  | _ => .error .attributeError

/-- `LangGraphReasoning` (`types.py`): the record returned by
`resolve_reasoning_content`.  `text` and `index` hold whatever JSON value
the chunk carried (Python does not check their types here). -/
structure LangGraphReasoning where
  text : Json
  type : String
  index : Json

/-- A LangChain message chunk as seen by `resolve_reasoning_content`:
its `content` attribute and, when present (`hasattr`), its
`additional_kwargs` dict. -/
structure Chunk where
  content : Json
  additional_kwargs : Option (List (String × Json))

/-- The Anthropic-style branch of `resolve_reasoning_content`
(utils.py lines 476–481), reached when `content` is a non-empty list with
a truthy first element: return `None` unless the first element's
`thinking` field is non-empty, else build the reasoning record. -/
def anthropicReasoning (first : Json) : Except PyErr (Option LangGraphReasoning) :=
  match first with
  | .obj fields =>
    (match List.lookup "thinking" fields with
     | some t =>
       if t.truthy then
         .ok (some ⟨t, "text", dictGet fields "index" (.num 0)⟩)
       else
         .ok none
     | none => .ok none)
  | _ => .error .attributeError

/-- The OpenAI-style branch of `resolve_reasoning_content`
(utils.py lines 484–493): look under
`additional_kwargs["reasoning"]["summary"][0]` for non-empty text. -/
def openaiReasoning (chunk : Chunk) : Except PyErr (Option LangGraphReasoning) :=
  match chunk.additional_kwargs with
  | none => .ok none
  | some kwargs =>
    match dictGet kwargs "reasoning" (.obj []) with
    | .obj rfields =>
      let summary := dictGet rfields "summary" (.arr [])
      if summary.truthy then
        match summary with
        | .arr (data :: _) =>
          if !data.truthy then .ok none
          else
            (match data with
             | .obj dfields =>
               (match List.lookup "text" dfields with
                | some t =>
                  if t.truthy then
                    .ok (some ⟨t, "text", dictGet dfields "index" (.num 0)⟩)
                  else .ok none
                | none => .ok none)
             | _ => .error .attributeError)
        | _ => .error .attributeError
      else .ok none
    | _ => .error .attributeError

/-- `resolve_reasoning_content` (utils.py lines 470–495).  Falsy content
returns `None`; a non-empty list with truthy first element takes the
Anthropic-style branch; everything else falls through to the
OpenAI-style branch. -/
def resolve_reasoning_content (chunk : Chunk) : Except PyErr (Option LangGraphReasoning) :=
  if !chunk.content.truthy then .ok none
  else
    match chunk.content with
    | .arr (first :: _) =>
      if first.truthy then anthropicReasoning first
      else openaiReasoning chunk
    | _ => openaiReasoning chunk

/-! ### String helpers (Python `str.strip`, `str.startswith`) -/

/-- Python whitespace characters for `str.strip()`. -/
def isPySpace (c : Char) : Bool :=
  c == ' ' || c == '\t' || c == '\n' || c == '\r' || c == '\x0b' || c == '\x0c'

/-- `s.strip()`. -/
def pyStrip (s : String) : String :=
  ⟨((s.data.dropWhile isPySpace).reverse.dropWhile isPySpace).reverse⟩

/-- One-character membership test used by `pyStartsWith`. -/
def charsStartWith : List Char → List Char → Bool
  | [], _ => true
  | _ :: _, [] => false
  | p :: ps, c :: cs => p == c && charsStartWith ps cs

/-- `s.startswith(p)`. -/
def pyStartsWith (s p : String) : Bool :=
  charsStartWith p.data s.data

/-! ### A JSON parser modelling `json.loads`

The model covers null/true/false, integers, strings with the common
escape sequences, arrays and objects.  Floats and `\u` escapes are not
modelled (none of the verified behaviours depend on them); on such
inputs the model parser fails, which the callers treat like a raised
`JSONDecodeError`.  The parser is fuelled to stay structurally
recursive; the nesting depth of a document is bounded by its length, so
`length + 1` fuel always suffices. -/

/-- Skip JSON/Python whitespace. -/
def skipWs : List Char → List Char
  | [] => []
  | c :: rest => if isPySpace c then skipWs rest else c :: rest

/-- Parse the body of a double-quoted JSON string (after the opening
quote), handling the standard escapes. -/
def parseStrChars : List Char → Option (List Char × List Char)
  | [] => none
  | '"' :: rest => some ([], rest)
  | '\\' :: e :: rest =>
    let esc : Option Char :=
      if e == '"' then some '"' else if e == '\\' then some '\\'
      else if e == '/' then some '/' else if e == 'n' then some '\n'
      else if e == 't' then some '\t' else if e == 'r' then some '\r'
      else if e == 'b' then some '\x08' else if e == 'f' then some '\x0c'
      else none
    match esc with
    | some c => (parseStrChars rest).map (fun p => (c :: p.1, p.2))
    | none => none
  | c :: rest => (parseStrChars rest).map (fun p => (c :: p.1, p.2))

/-- Take a maximal run of decimal digits. -/
def takeDigits : List Char → (List Char × List Char)
  | [] => ([], [])
  | c :: rest =>
    if c.isDigit then
      let p := takeDigits rest
      (c :: p.1, p.2)
    else ([], c :: rest)

/-- Decimal digits to a natural number. -/
def digitsToNat (ds : List Char) : Nat :=
  ds.foldl (fun acc c => acc * 10 + (c.toNat - 48)) 0

/-- Parse an integer literal (optional minus sign, at least one digit).
A following `.`, `e` or `E` means a float, which the model rejects. -/
def parseIntChars : List Char → Option (Int × List Char)
  | '-' :: rest =>
    match takeDigits rest with
    | ([], _) => none
    | (ds, rem) =>
      match rem with
      | c :: _ => if c == '.' || c == 'e' || c == 'E' then none else some (-(digitsToNat ds : Int), rem)
      | [] => some (-(digitsToNat ds : Int), [])
  | cs =>
    match takeDigits cs with
    | ([], _) => none
    | (ds, rem) =>
      match rem with
      | c :: _ => if c == '.' || c == 'e' || c == 'E' then none else some ((digitsToNat ds : Int), rem)
      | [] => some ((digitsToNat ds : Int), [])

mutual

/-- Parse one JSON value. -/
def parseJsonVal : Nat → List Char → Option (Json × List Char)
  | 0, _ => none
  | fuel + 1, cs =>
    match skipWs cs with
    | 'n' :: 'u' :: 'l' :: 'l' :: rest => some (.null, rest)
    | 't' :: 'r' :: 'u' :: 'e' :: rest => some (.bool true, rest)
    | 'f' :: 'a' :: 'l' :: 's' :: 'e' :: rest => some (.bool false, rest)
    | '"' :: rest => (parseStrChars rest).map (fun p => (.str ⟨p.1⟩, p.2))
    | '[' :: rest =>
      (match skipWs rest with
       | ']' :: more => some (.arr [], more)
       | other => (parseJsonElems fuel other).map (fun p => (.arr p.1, p.2)))
    | '\x7b' :: rest =>
      (match skipWs rest with
       | '\x7d' :: more => some (.obj [], more)
       | other => (parseJsonFields fuel other).map (fun p => (.obj p.1, p.2)))
    | other => (parseIntChars other).map (fun p => (.num p.1, p.2))

/-- Parse the elements of a non-empty JSON array, up to the closing
bracket. -/
def parseJsonElems : Nat → List Char → Option (List Json × List Char)
  | 0, _ => none
  | fuel + 1, cs => do
    let (v, rest) ← parseJsonVal fuel cs
    match skipWs rest with
    | ',' :: more =>
      let (vs, rem) ← parseJsonElems fuel more
      some (v :: vs, rem)
    | ']' :: more => some ([v], more)
    | _ => none

/-- Parse the members of a non-empty JSON object, up to the closing
brace. -/
def parseJsonFields : Nat → List Char → Option (List (String × Json) × List Char)
  | 0, _ => none
  | fuel + 1, cs =>
    match skipWs cs with
    | '"' :: rest => do
      let (k, afterKey) ← parseStrChars rest
      match skipWs afterKey with
      | ':' :: afterColon => do
        let (v, rest2) ← parseJsonVal fuel afterColon
        match skipWs rest2 with
        | ',' :: more =>
          let (kvs, rem) ← parseJsonFields fuel more
          some ((⟨k⟩, v) :: kvs, rem)
        | '\x7d' :: more => some ([(⟨k⟩, v)], more)
        | _ => none
      | _ => none
    | _ => none

end

/-- `_try_parse_json` (utils.py lines 78–82): `json.loads`, with parse
failures mapped to `None`. -/
def _try_parse_json (s : String) : Option Json :=
  match parseJsonVal (s.length + 1) s.data with
  | some (v, rest) => if (skipWs rest).isEmpty then some v else none
  | none => none

/-! ### A Python-literal parser modelling `ast.literal_eval`

Covers `None`/`True`/`False`, integers, single- or double-quoted
strings, lists, tuples and dicts with string keys.  Other literal forms
(floats, sets, bytes, complex numbers, non-string dict keys, exotic
escapes) make the model parser fail, which the one caller treats like a
raised exception. -/

/-- Parse the body of a Python string literal delimited by `q`. -/
def parseLitStrChars (q : Char) : List Char → Option (List Char × List Char)
  | [] => none
  | '\\' :: e :: rest =>
    let esc : Option Char :=
      if e == '\'' then some '\'' else if e == '"' then some '"'
      else if e == '\\' then some '\\' else if e == 'n' then some '\n'
      else if e == 't' then some '\t' else if e == 'r' then some '\r'
      else none
    match esc with
    | some c => (parseLitStrChars q rest).map (fun p => (c :: p.1, p.2))
    | none => none
  | c :: rest =>
    if c == q then some ([], rest)
    else (parseLitStrChars q rest).map (fun p => (c :: p.1, p.2))

mutual

/-- Parse one Python literal. -/
def parseLitVal : Nat → List Char → Option (Json × List Char)
  | 0, _ => none
  | fuel + 1, cs =>
    match skipWs cs with
    | 'N' :: 'o' :: 'n' :: 'e' :: rest => some (.null, rest)
    | 'T' :: 'r' :: 'u' :: 'e' :: rest => some (.bool true, rest)
    | 'F' :: 'a' :: 'l' :: 's' :: 'e' :: rest => some (.bool false, rest)
    | '\'' :: rest => (parseLitStrChars '\'' rest).map (fun p => (.str ⟨p.1⟩, p.2))
    | '"' :: rest => (parseLitStrChars '"' rest).map (fun p => (.str ⟨p.1⟩, p.2))
    | '[' :: rest =>
      (match skipWs rest with
       | ']' :: more => some (.arr [], more)
       | other => (parseLitElems fuel ']' other).map (fun p => (.arr p.1, p.2)))
    | '(' :: rest =>
      (match skipWs rest with
       | ')' :: more => some (.arr [], more)
       | other => (parseLitElems fuel ')' other).map (fun p => (.arr p.1, p.2)))
    | '\x7b' :: rest =>
      (match skipWs rest with
       | '\x7d' :: more => some (.obj [], more)
       | other => (parseLitFields fuel other).map (fun p => (.obj p.1, p.2)))
    | other => (parseIntChars other).map (fun p => (.num p.1, p.2))

/-- Parse literal sequence elements up to the closing character
(`]` or `)`); Python allows a trailing comma. -/
def parseLitElems : Nat → Char → List Char → Option (List Json × List Char)
  | 0, _, _ => none
  | fuel + 1, closeC, cs => do
    let (v, rest) ← parseLitVal fuel cs
    match skipWs rest with
    | ',' :: more =>
      (match skipWs more with
       | c :: rem =>
         if c == closeC then some ([v], rem)
         else do
           let (vs, rem2) ← parseLitElems fuel closeC (c :: rem)
           some (v :: vs, rem2)
       | [] => none)
    | c :: rem => if c == closeC then some ([v], rem) else none
    | [] => none

/-- Parse literal dict members (string keys) up to the closing brace;
Python allows a trailing comma. -/
def parseLitFields : Nat → List Char → Option (List (String × Json) × List Char)
  | 0, _ => none
  | fuel + 1, cs => do
    let (k, afterKey) ←
      match skipWs cs with
      | '\'' :: rest => parseLitStrChars '\'' rest
      | '"' :: rest => parseLitStrChars '"' rest
      | _ => none
    match skipWs afterKey with
    | ':' :: afterColon => do
      let (v, rest2) ← parseLitVal fuel afterColon
      match skipWs rest2 with
      | ',' :: more =>
        (match skipWs more with
         | '\x7d' :: rem => some ([(⟨k⟩, v)], rem)
         | other => do
           let (kvs, rem2) ← parseLitFields fuel other
           some ((⟨k⟩, v) :: kvs, rem2))
      | '\x7d' :: more => some ([(⟨k⟩, v)], more)
      | _ => none
    | _ => none

end

/-- `ast.literal_eval` restricted to the JSON-like fragment; failures
(and literal forms outside the fragment) are `none`, which the caller
treats like a raised exception. -/
def ast_literal_eval (s : String) : Option Json :=
  match parseLitVal (s.length + 1) s.data with
  | some (v, rest) => if (skipWs rest).isEmpty then some v else none
  | none => none

/-! ### A JSON serializer modelling `json.dumps` -/

/-- Escape one character as inside a JSON string
(`ensure_ascii` escaping of non-ASCII characters is not modelled). -/
def escapeJsonChar (c : Char) : List Char :=
  if c == '"' then ['\\', '"']
  else if c == '\\' then ['\\', '\\']
  else if c == '\n' then ['\\', 'n']
  else if c == '\t' then ['\\', 't']
  else if c == '\r' then ['\\', 'r']
  else if c == '\x08' then ['\\', 'b']
  else if c == '\x0c' then ['\\', 'f']
  else if c.toNat < 32 then
    let hexDigit := fun (n : Nat) => if n < 10 then Char.ofNat (48 + n) else Char.ofNat (87 + n)
    ['\\', 'u', '0', '0', hexDigit (c.toNat / 16), hexDigit (c.toNat % 16)]
  else [c]

/-- A string rendered as a JSON string literal. -/
def renderJsonString (s : String) : List Char :=
  '"' :: s.data.foldr (fun c acc => escapeJsonChar c ++ acc) ['"']

mutual

/-- Render one JSON value with Python's default separators
(`", "` and `": "`).  Fuelled; `sizeOf` of the value bounds the needed
fuel. -/
def dumpsVal : Nat → Json → List Char
  | 0, _ => []
  | fuel + 1, j =>
    match j with
    | .null => "null".data
    | .bool b => if b then "true".data else "false".data
    | .num n => (toString n).data
    | .str s => renderJsonString s
    | .arr [] => "[]".data
    | .arr (x :: xs) => '[' :: (dumpsVal fuel x ++ dumpsArr fuel xs)
    | .obj [] => "\x7b\x7d".data
    | .obj (kv :: kvs) => '\x7b' :: (dumpsKV fuel kv ++ dumpsFields fuel kvs)

/-- Render the remaining elements of an array and the closing bracket. -/
def dumpsArr : Nat → List Json → List Char
  | 0, _ => []
  | _ + 1, [] => [']']
  | fuel + 1, x :: xs => ',' :: ' ' :: (dumpsVal fuel x ++ dumpsArr fuel xs)

/-- Render one object member. -/
def dumpsKV : Nat → String × Json → List Char
  | 0, _ => []
  | fuel + 1, (k, v) => renderJsonString k ++ ':' :: ' ' :: dumpsVal fuel v

/-- Render the remaining members of an object and the closing brace. -/
def dumpsFields : Nat → List (String × Json) → List Char
  | 0, _ => []
  | _ + 1, [] => ['\x7d']
  | fuel + 1, kv :: kvs => ',' :: ' ' :: (dumpsKV fuel kv ++ dumpsFields fuel kvs)

end

mutual

/-- Size of a JSON value, used to bound the serializer's fuel. -/
def jsonSize : Json → Nat
  | .null => 1
  | .bool _ => 1
  | .num _ => 1
  | .str _ => 1
  | .arr l => 1 + jsonSizeArr l
  | .obj l => 1 + jsonSizeFields l

/-- Size of a list of JSON values. -/
def jsonSizeArr : List Json → Nat
  | [] => 1
  | x :: xs => 1 + jsonSize x + jsonSizeArr xs

/-- Size of a JSON object's field list. -/
def jsonSizeFields : List (String × Json) → Nat
  | [] => 1
  | kv :: kvs => 1 + jsonSize kv.2 + jsonSizeFields kvs

end

/-- `json.dumps` on a JSON-like value. -/
def json_dumps (j : Json) : String :=
  ⟨dumpsVal (jsonSize j + 1) j⟩

/-! ### `make_json_safe` and tool-result wrapping (utils.py 85–181, 567–649) -/

mutual

/-- `make_json_safe` (utils.py lines 567–649) restricted to JSON-like
values: primitives pass through, dicts and lists recurse.  The
remaining source rules coerce Python objects (enums, dataclasses,
pydantic models, `__dict__` objects, `repr` fallback) that lie outside
the JSON fragment; cycles cannot occur in an inductive value. -/
def make_json_safe : Json → Json
  | .null => .null
  | .bool b => .bool b
  | .num n => .num n
  | .str s => .str s
  | .arr l => .arr (makeJsonSafeArr l)
  | .obj kvs => .obj (makeJsonSafeFields kvs)

/-- `make_json_safe` over the elements of a list. -/
def makeJsonSafeArr : List Json → List Json
  | [] => []
  | x :: xs => make_json_safe x :: makeJsonSafeArr xs

/-- `make_json_safe` over the members of a dict (string keys are
already safe). -/
def makeJsonSafeFields : List (String × Json) → List (String × Json)
  | [] => []
  | (k, v) :: kvs => (k, make_json_safe v) :: makeJsonSafeFields kvs

end

/-- `_normalize_tool_result_data` (utils.py lines 85–112): JSON-safe the
value; if the result is a string whose stripped form looks like a JSON
container, try `json.loads`, then `ast.literal_eval`, else keep the
string. -/
def _normalize_tool_result_data (raw_content : Json) : Json :=
  let safe := make_json_safe raw_content
  match safe with
  | .str s =>
    let stripped := pyStrip s
    if pyStartsWith stripped "\x7b" || pyStartsWith stripped "[" then
      match _try_parse_json stripped with
      | some parsed => parsed
      | none =>
        match ast_literal_eval stripped with
        | some lit => make_json_safe lit
        | none => safe
    else safe
  | _ => safe

/-- Is the JSON value `null`? (`x is None` on a dict entry.) -/
def Json.isNull : Json → Bool
  | .null => true
  | _ => false

/-- The envelope test of `wrap_tool_result_content` (utils.py lines
138–141, 157–158): a dict with a `data` key and a `toolCallId` or
`tool_call_id` key. -/
def isEnvelopeDict (fields : List (String × Json)) : Bool :=
  (List.lookup "data" fields).isSome &&
    ((List.lookup "toolCallId" fields).isSome || (List.lookup "tool_call_id" fields).isSome)

/-- `d[key] = v` on a dict with unique keys: overwrite in place,
else append (Python insertion-order semantics). -/
def setKey (fields : List (String × Json)) (key : String) (v : Json) : List (String × Json) :=
  if (List.lookup key fields).isSome then
    fields.map (fun kv => if kv.1 = key then (key, v) else kv)
  else fields ++ [(key, v)]

/-- `d.setdefault(key, v)`. -/
def setDefault (fields : List (String × Json)) (key : String) (v : Json) : List (String × Json) :=
  if (List.lookup key fields).isSome then fields else fields ++ [(key, v)]

/-- The `meta` marker of envelope v1. -/
def metaV1 : Json :=
  .obj [("format", .str "ag_ui_tool_result_v1")]

/-- An optional Python string as a JSON value (`None` → `null`). -/
def optStrJson : Option String → Json
  | some s => .str s
  | none => .null

/-- Truthiness of an optional Python string. -/
def optStrTruthy : Option String → Bool
  | some s => s != ""
  | none => false

/-- The pass-through branch of `wrap_tool_result_content` (utils.py
lines 142–151): normalize an existing envelope dict in place. -/
def normalizeEnvelope (tool_call_id tool_name : Option String) (ok : Option Bool)
    (fields : List (String × Json)) : List (String × Json) :=
  let n1 := setDefault fields "meta" metaV1
  let n2 :=
    if (List.lookup "toolCallId" n1).isNone && (List.lookup "tool_call_id" n1).isSome then
      setKey n1 "toolCallId" (dictGet n1 "tool_call_id" .null)
    else n1
  let n3 :=
    if optStrTruthy tool_call_id && !(dictGet n2 "toolCallId" .null).truthy then
      setKey n2 "toolCallId" (optStrJson tool_call_id)
    else n2
  let n4 :=
    if optStrTruthy tool_name && (dictGet n3 "tool" .null).isNull then
      setKey n3 "tool" (optStrJson tool_name)
    else n3
  match ok with
  | some b => setKey n4 "ok" (.bool b)
  | none => n4

/-- Default `ok` of a fresh envelope (utils.py lines 168–172): false
exactly when the normalized data is a dict with an `error`, `errors` or
`exception` key. -/
def resolveOkFlag (ok : Option Bool) (data : Json) : Bool :=
  match ok with
  | some b => b
  | none =>
    !(match data with
      | .obj f =>
        (List.lookup "error" f).isSome || (List.lookup "errors" f).isSome ||
          (List.lookup "exception" f).isSome
      | _ => false)

/-- The fresh-wrap branch of `wrap_tool_result_content` (utils.py lines
167–181): build a brand-new envelope around normalized data. -/
def freshEnvelope (tool_call_id tool_name : Option String) (raw_content : Json)
    (ok : Option Bool) : Json :=
  let data := _normalize_tool_result_data raw_content
  .obj [("ok", .bool (resolveOkFlag ok data)), ("tool", optStrJson tool_name),
    ("toolCallId", optStrJson tool_call_id), ("data", data), ("meta", metaV1)]

/-- The JSON object serialized by `wrap_tool_result_content` (utils.py
lines 115–181).  A dict that is already an envelope, or a JSON string
parsing to one, is normalized in place (the source re-enters itself on
the parsed dict, which lands in the dict branch); everything else is
wrapped fresh. -/
def wrap_tool_result_envelope (tool_call_id tool_name : Option String) (raw_content : Json)
    (ok : Option Bool) : Json :=
  match raw_content with
  | .obj fields =>
    if isEnvelopeDict fields then .obj (normalizeEnvelope tool_call_id tool_name ok fields)
    else freshEnvelope tool_call_id tool_name raw_content ok
  | .str s =>
    (match _try_parse_json s with
     | some (.obj fields) =>
       if isEnvelopeDict fields then .obj (normalizeEnvelope tool_call_id tool_name ok fields)
       else freshEnvelope tool_call_id tool_name raw_content ok
     | _ => freshEnvelope tool_call_id tool_name raw_content ok)
  | _ => freshEnvelope tool_call_id tool_name raw_content ok

/-- `wrap_tool_result_content` itself: the envelope rendered by
`json.dumps`. -/
def wrap_tool_result_content (tool_call_id tool_name : Option String) (raw_content : Json)
    (ok : Option Bool) : String :=
  json_dumps (wrap_tool_result_envelope tool_call_id tool_name raw_content ok)

/-! ### Message models

AG-UI messages (`ag_ui.core`) are pydantic models; the fields the
adapter touches are the id, the role tag, the content (a string, a
multimodal part list, or absent), the optional name, the assistant's
tool calls and the tool message's `tool_call_id`.  LangChain messages
are `HumanMessage` / `AIMessage` / `SystemMessage` / `ToolMessage`,
whose `content` is a string or a list of blocks (modelled as `Json`). -/

/-- AG-UI multimodal input content (`TextInputContent` /
`BinaryInputContent`). -/
inductive InputContent where
  | textInput (text : String) : InputContent
  | binaryInput (mime_type : String) (data : Option String) (url : Option String)
      (id : Option String) (filename : Option String) : InputContent
deriving Repr, DecidableEq

/-- The content attribute of an AG-UI message: absent, a plain string,
or a multimodal part list. -/
inductive AGUIContentVal where
  | none : AGUIContentVal
  | str (s : String) : AGUIContentVal
  | parts (items : List InputContent) : AGUIContentVal
deriving Repr, DecidableEq

/-- An AG-UI tool call (`ToolCall` with its nested `FunctionCall`;
the `type` discriminant is the constant `"function"`). -/
structure AGUIToolCall where
  id : String
  name : String
  arguments : String
deriving Repr, DecidableEq

/-- An AG-UI message; the `role` string discriminates the concrete
pydantic class. -/
structure AGUIMsg where
  id : String
  role : String
  content : AGUIContentVal
  name : Option String
  tool_calls : Option (List AGUIToolCall)
  tool_call_id : Option String
deriving Repr, DecidableEq

/-- A LangChain tool-call dict `{"id", "name", "args", "type"}`. -/
structure LCToolCall where
  id : String
  name : String
  args : Json

/-- A LangChain message. -/
inductive BaseMessage where
  | human (id : String) (content : Json) (name : Option String) : BaseMessage
  | ai (id : String) (content : Json) (tool_calls : List LCToolCall)
      (name : Option String) : BaseMessage
  | system (id : String) (content : Json) (name : Option String) : BaseMessage
  | tool (id : String) (content : Json) (name : Option String)
      (tool_call_id : String) : BaseMessage

/-- `stringify_if_needed` (utils.py lines 70–75): `None` → `""`,
strings pass through, everything else is `json.dumps`ed. -/
def stringify_if_needed : Json → String
  | .null => ""
  | .str s => s
  | j => json_dumps j

/-- Python `x == "text"` between a JSON value and a string. -/
def Json.isStrEq : Json → String → Bool
  | .str s, t => s == t
  | _, _ => false

/-- `resolve_message_content` (utils.py lines 498–516): falsy content
is `None`; strings pass through; in a block list, the `text` of the
first `{"type": "text"}` dict (or `None`); anything else is `None`. -/
def resolve_message_content (content : Json) : Json :=
  if !content.truthy then .null
  else
    match content with
    | .str s => .str s
    | .arr items =>
      (match items.find? (fun c =>
          match c with
          | .obj f => (dictGet f "type" .null).isStrEq "text"
          | _ => false) with
       | some c => (c.objLookup "text").getD .null
       | none => .null)
    | _ => .null

/-- Split a character list at every occurrence of `sep`
(Python `str.split(sep)`). -/
def splitCharsAll (sep : Char) : List Char → List (List Char)
  | [] => [[]]
  | c :: rest =>
    let r := splitCharsAll sep rest
    if c == sep then [] :: r
    else
      match r with
      | g :: gs => (c :: g) :: gs
      | [] => [[c]]

/-- Split a character list at the first occurrence of `sep`
(Python `str.split(sep, 1)`); `none` when `sep` does not occur. -/
def splitCharsOnFirst (sep : Char) : List Char → List Char × Option (List Char)
  | [] => ([], none)
  | c :: rest =>
    if c == sep then ([], some rest)
    else
      let p := splitCharsOnFirst sep rest
      (c :: p.1, p.2)

/-- A JSON value expected (by the upstream schema) to be a string;
other shapes fall back to the given default. -/
def Json.asStrD : Json → String → String
  | .str s, _ => s
  | _, d => d

/-- `convert_langchain_multimodal_to_agui` (utils.py lines 184–229):
text blocks become `TextInputContent`; `image_url` blocks become
`BinaryInputContent`, decoding `data:` URLs into mime type plus base64
payload; other items are skipped. -/
def convert_langchain_multimodal_to_agui (content : List Json) : List InputContent :=
  content.foldr
    (fun item acc =>
      match item with
      | .obj f =>
        if (dictGet f "type" .null).isStrEq "text" then
          .textInput ((dictGet f "text" (.str "")).asStrD "") :: acc
        else if (dictGet f "type" .null).isStrEq "image_url" then
          let imageUrlData := dictGet f "image_url" (.obj [])
          let url :=
            match imageUrlData with
            | .obj uf => (dictGet uf "url" (.str "")).asStrD ""
            | other => other.asStrD ""
          if pyStartsWith url "data:" then
            let p := splitCharsOnFirst ',' url.data
            let header : String := ⟨p.1⟩
            let dataStr : String := ⟨(p.2).getD []⟩
            let mime : String :=
              if header.data.contains ':' then
                ⟨splitCharsAll ';' ((splitCharsAll ':' header.data).getD 1 []) |>.headD []⟩
              else "image/png"
            .binaryInput mime (some dataStr) none none none :: acc
          else
            .binaryInput "image/png" none (some url) none none :: acc
        else acc
      | _ => acc)
    []

/-- `convert_agui_multimodal_to_langchain` (utils.py lines 372–398):
the inverse OpenAI-style block list, preferring `url`, then `data`
(as a `data:` URL), then `id`. -/
def convert_agui_multimodal_to_langchain (content : List InputContent) : List Json :=
  content.map
    (fun item =>
      match item with
      | .textInput t => .obj [("type", .str "text"), ("text", .str t)]
      | .binaryInput mime dataB url idv _ =>
        if optStrTruthy url then
          .obj [("type", .str "image_url"), ("image_url", .obj [("url", .str (url.getD ""))])]
        else if optStrTruthy dataB then
          .obj [("type", .str "image_url"),
            ("image_url", .obj [("url", .str ("data:" ++ mime ++ ";base64," ++ dataB.getD ""))])]
        else if optStrTruthy idv then
          .obj [("type", .str "image_url"), ("image_url", .obj [("url", .str (idv.getD ""))])]
        else .obj [("type", .str "image_url")])

/-- One AG-UI tool call as a LangChain tool-call dict (utils.py lines
424–434); non-empty argument strings must parse as JSON or
`json.loads` raises. -/
def lcToolCallOfAgui (tc : AGUIToolCall) : Except PyErr LCToolCall :=
  if tc.arguments = "" then .ok ⟨tc.id, tc.name, .obj []⟩
  else
    match _try_parse_json tc.arguments with
    | some args => .ok ⟨tc.id, tc.name, args⟩
    | none => .error (.jsonDecodeError tc.arguments)

/-- The assistant tool-call list conversion (utils.py lines 422–434),
evaluated left to right; the first `json.loads` failure aborts. -/
def lcToolCallsOfAgui : List AGUIToolCall → Except PyErr (List LCToolCall)
  | [] => .ok []
  | tc :: rest =>
    match lcToolCallOfAgui tc with
    | .error e => .error e
    | .ok hd =>
      (match lcToolCallsOfAgui rest with
       | .error e => .error e
       | .ok tl => .ok (hd :: tl))

/-- One step of `agui_messages_to_langchain` (utils.py lines 401–467):
`none` for reasoning messages (skipped), `some` for the four convertible
roles, errors for `json.loads` failures, pydantic-invalid content
shapes, and unsupported roles. -/
def agui_to_langchain_one (m : AGUIMsg) : Except PyErr (Option BaseMessage) :=
  if m.role = "user" then
    let content : Json :=
      match m.content with
      | .str s => .str s
      | .parts items => .arr (convert_agui_multimodal_to_langchain items)
      | .none => .str "None"
    .ok (some (.human m.id content m.name))
  else if m.role = "assistant" then
    match (match m.tool_calls with
           | some l => lcToolCallsOfAgui l
           | none => .ok []) with
    | .error e => .error e
    | .ok tcs =>
      (match m.content with
       | .str s => .ok (some (.ai m.id (.str s) tcs m.name))
       | .none => .ok (some (.ai m.id (.str "") tcs m.name))
       | .parts items =>
         if items.isEmpty then .ok (some (.ai m.id (.str "") tcs m.name))
         else .error .validationError)
  else if m.role = "system" then
    match m.content with
    | .str s => .ok (some (.system m.id (.str s) m.name))
    | _ => .error .validationError
  else if m.role = "tool" then
    match m.content, m.tool_call_id with
    | .str s, some tcid => .ok (some (.tool m.id (.str s) none tcid))
    | _, _ => .error .validationError
  else if m.role = "reasoning" then .ok none
  else .error (.valueError ("Unsupported message role: " ++ m.role))

/-- `agui_messages_to_langchain` (utils.py lines 401–467): convert each
message in order, dropping reasoning messages; the first failure
aborts the whole conversion, as a raised exception does. -/
def agui_messages_to_langchain : List AGUIMsg → Except PyErr (List BaseMessage)
  | [] => .ok []
  | m :: rest =>
    match agui_to_langchain_one m with
    | .error e => .error e
    | .ok hd =>
      (match agui_messages_to_langchain rest with
       | .error e => .error e
       | .ok tl =>
         match hd with
         | some b => .ok (b :: tl)
         | none => .ok tl)

/-- Python `a or b` on JSON-like values. -/
def pyOrJson (a b : Json) : Json :=
  if a.truthy then a else b

/-- The reasoning-block extraction loop of `langchain_messages_to_agui`
(utils.py lines 301–315): dict blocks whose `thinking` (or `reasoning`)
field is truthy become `ReasoningMessage`s with ids
`{id}-reasoning-{n}`; a truthy non-string reasoning value fails
pydantic validation of `ReasoningMessage.content`. -/
def extractReasoningBlocks (aiId : String) : List Json → Nat → Except PyErr (List AGUIMsg)
  | [], _ => .ok []
  | block :: rest, ri =>
    match block with
    | .obj f =>
      let rt := pyOrJson (dictGet f "thinking" .null) (dictGet f "reasoning" .null)
      if rt.truthy then
        match rt with
        | .str s =>
          (match extractReasoningBlocks aiId rest (ri + 1) with
           | .error e => .error e
           | .ok tl =>
             .ok (⟨aiId ++ "-reasoning-" ++ toString ri, "reasoning", .str s,
               none, none, none⟩ :: tl))
        | _ => .error .validationError
      else extractReasoningBlocks aiId rest ri
    | _ => extractReasoningBlocks aiId rest ri

/-- One LangChain tool-call dict as an AG-UI tool call (utils.py lines
318–329); the args dict is `json.dumps`ed into the `arguments`
string. -/
def aguiToolCallOfLc (tc : LCToolCall) : AGUIToolCall :=
  ⟨tc.id, tc.name, json_dumps tc.args⟩

/-- The per-message step of `langchain_messages_to_agui` (utils.py
lines 283–368): each LangChain message yields the AG-UI messages it
appends (AI messages may yield extracted reasoning messages first). -/
def langchain_to_agui_one : BaseMessage → Except PyErr (List AGUIMsg)
  | .human idv content nm =>
    let c : AGUIContentVal :=
      match content with
      | .arr items => .parts (convert_langchain_multimodal_to_agui items)
      | other => .str (stringify_if_needed (resolve_message_content other))
    .ok [⟨idv, "user", c, nm, none, none⟩]
  | .ai idv content tcs nm =>
    (match (match content with
            | .arr blocks => extractReasoningBlocks idv blocks 0
            | _ => .ok []) with
     | .error e => .error e
     | .ok reasoning =>
       let toolCalls : Option (List AGUIToolCall) :=
         if tcs.isEmpty then none else some (tcs.map aguiToolCallOfLc)
       .ok (reasoning ++
         [⟨idv, "assistant", .str (stringify_if_needed (resolve_message_content content)),
           nm, toolCalls, none⟩]))
  | .system idv content nm =>
    .ok [⟨idv, "system", .str (stringify_if_needed (resolve_message_content content)),
      nm, none, none⟩]
  | .tool idv content nm tcid =>
    .ok [⟨idv, "tool", .str (wrap_tool_result_content (some tcid) nm content none),
      none, none, some tcid⟩]

/-- `langchain_messages_to_agui` (utils.py lines 280–369). -/
def langchain_messages_to_agui : List BaseMessage → Except PyErr (List AGUIMsg)
  | [] => .ok []
  | msg :: rest =>
    match langchain_to_agui_one msg with
    | .error e => .error e
    | .ok hds =>
      (match langchain_messages_to_agui rest with
       | .error e => .error e
       | .ok tl => .ok (hds ++ tl))

/-! ### Interleaving reasoning messages (utils.py 232–277) -/

/-- The ids of the reasoning-role messages already in the result
(utils.py line 270). -/
def reasoningIds (result : List AGUIMsg) : List String :=
  (result.filter (fun m => m.role = "reasoning")).map (fun m => m.id)

/-- The loop of `interleave_reasoning_messages` (utils.py lines
255–277), carrying the result built so far and the not-yet-paired
reasoning messages. -/
def interleaveLoop (result : List AGUIMsg) :
    List AGUIMsg → List AGUIMsg → List AGUIMsg
  | [], _ => result
  | msg :: rest, pending =>
    if msg.role = "reasoning" then interleaveLoop (result ++ [msg]) rest pending
    else
      match pending with
      | r :: rs =>
        if msg.role = "assistant" then
          if r.id ∈ reasoningIds result then interleaveLoop (result ++ [msg]) rest rs
          else interleaveLoop (result ++ [r, msg]) rest rs
        else interleaveLoop (result ++ [msg]) rest (r :: rs)
      | [] => interleaveLoop (result ++ [msg]) rest []

/-- `interleave_reasoning_messages` (utils.py lines 232–277). -/
def interleave_reasoning_messages (agui_messages reasoning_messages : List AGUIMsg) :
    List AGUIMsg :=
  if reasoning_messages.isEmpty then agui_messages
  else interleaveLoop [] agui_messages reasoning_messages

/-- The interleaving the specification (and claim C4) describes: each
reasoning entry goes immediately before the next not-yet-paired
assistant message, one per assistant, leftovers unplaced.  Stated from
the spec's words, to be compared with the source translation. -/
def interleaveSpecFn : List AGUIMsg → List AGUIMsg → List AGUIMsg
  | msgs, [] => msgs
  | [], _ :: _ => []
  | msg :: rest, r :: rs =>
    if msg.role = "assistant" then r :: msg :: interleaveSpecFn rest rs
    else msg :: interleaveSpecFn rest (r :: rs)

/-! ### Interrupt handling (spec §3, §4.4, §4.5, §8)

The interrupt detector and resume router live in `agent.py`, which is
not part of the sources here (only its tests are); these definitions
are modelled from the specification. -/

/-- Modelled from the spec: a `PendingInterrupt` surfaced by the engine
(§3) — an identifier and an opaque payload value, whose `reason` field
(when the value is a dict) classifies the pause. -/
structure PendingInterrupt where
  id : String
  value : Json

/-- Modelled from the spec: the interrupt-reason resolver
(`_get_interrupt_reason`, absent `agent.py`; behaviour fixed by §8's
`resolveReason` examples and the tests): `None` for no interrupts, the
first interrupt's `reason` dict field when present, else the default
`human_approval`. -/
def get_interrupt_reason : List PendingInterrupt → Option Json
  | [] => none
  | i :: _ =>
    match i.value with
    | .obj fields => some (dictGet fields "reason" (.str "human_approval"))
    | _ => some (.str "human_approval")

/-- Modelled from the spec: a client `ResumeRequest` (§3) — optional
target interrupt identifier and a payload (`null` when absent). -/
structure ResumeRequest where
  interrupt_id : Option String
  payload : Json

/-- `d.get(key, dflt)` on a JSON value; non-dicts yield the default. -/
def jsonGet (j : Json) (key : String) (dflt : Json) : Json :=
  match j with
  | .obj fields => dictGet fields key dflt
  | _ => dflt

/-- Modelled from the spec: the backward-compatibility channel
`forwarded_props["command"]["resume"]` (§3, and
`test_interrupts.py` lines 188–236); an empty/falsy forwarded-props
dict yields nothing. -/
def resumeFromForwardedProps (forwarded_props : Json) : Json :=
  if forwarded_props.truthy then
    jsonGet (jsonGet forwarded_props "command" (.obj [])) "resume" .null
  else .null

/-- Modelled from the spec: resolution of the continuation payload of a
run request (§3's precedence rule, mirrored by
`test_input_resume_takes_precedence`): a non-null primary resume
payload wins outright; otherwise the forwarded-properties channel is
consulted. -/
def resolve_resume_input (resume : Option ResumeRequest) (forwarded_props : Json) : Json :=
  match resume with
  | some r => if !r.payload.isNull then r.payload else resumeFromForwardedProps forwarded_props
  | none => resumeFromForwardedProps forwarded_props

/-- Modelled from the spec: the configuration error of §4.4, naming the
count and every pending interrupt identifier. -/
structure InterruptConfigError where
  count : Nat
  interrupt_ids : List String

/-- Modelled from the spec: what the interrupt detector decides to do
(§4.4): proceed to normal streaming, emit the terminal paused outcome
for the first pending interrupt, or resume with a continuation command
wrapping `{interruptId: resumePayload}`. -/
inductive InterruptDecision where
  | proceed : InterruptDecision
  | statusCheck (first : PendingInterrupt) : InterruptDecision
  | resumeWith (command : List (String × Json)) : InterruptDecision

/-- Modelled from the spec: the interrupt detector / resume router of
§4.4 (absent `agent.py`): with no pending interrupts the run proceeds;
with no resume payload, a status check reports the first interrupt;
with a resume payload, an explicit target id (or a single pending
interrupt) builds the continuation command, while several pending
interrupts without a target id fail with the enumerated configuration
error. -/
def detect_interrupts (pending : List PendingInterrupt) (resume_payload : Json)
    (target_id : Option String) : Except InterruptConfigError InterruptDecision :=
  match pending with
  | [] => .ok .proceed
  | first :: rest =>
    if resume_payload.isNull then .ok (.statusCheck first)
    else
      match target_id with
      | some tid => .ok (.resumeWith [(tid, resume_payload)])
      | none =>
        if rest.isEmpty then .ok (.resumeWith [(first.id, resume_payload)])
        else .error ⟨pending.length, pending.map (fun i => i.id)⟩

/-! ### Auxiliary predicates used by the theorem statements -/

/-- Is the JSON value a dict? -/
def Json.isObj : Json → Bool
  | .obj _ => true
  | _ => false

/-- Does `wrap_tool_result_content` regard this raw content as an
existing envelope (a dict with the envelope keys, or a JSON string
parsing to one)? -/
def isEnvelopeInput : Json → Bool
  | .obj fields => isEnvelopeDict fields
  | .str s =>
    (match _try_parse_json s with
     | some (.obj fields) => isEnvelopeDict fields
     | _ => false)
  | _ => false

/-- The message roles `agui_messages_to_langchain` accepts. -/
def validRoles : List String :=
  ["user", "assistant", "system", "tool", "reasoning"]

/-- Schema-validity of an AG-UI message's fields for its role, as the
pydantic message classes guarantee: user content is a string or part
list, assistant content is a string or absent, system and tool content
are strings, and tool messages carry a `tool_call_id`. -/
def AGUIMsg.schemaOk (m : AGUIMsg) : Bool :=
  if m.role = "user" then
    (match m.content with
     | .str _ => true
     | .parts _ => true
     | .none => false)
  else if m.role = "assistant" then
    (match m.content with
     | .str _ => true
     | .none => true
     | .parts _ => false)
  else if m.role = "system" then
    (match m.content with
     | .str _ => true
     | _ => false)
  else if m.role = "tool" then
    (match m.content, m.tool_call_id with
     | .str _, some _ => true
     | _, _ => false)
  else true

/-- Every tool-call `arguments` string of the message is empty or
parses as JSON (so `json.loads` cannot raise on it). -/
def AGUIMsg.toolCallArgsOk (m : AGUIMsg) : Bool :=
  match m.tool_calls with
  | some l => l.all (fun tc => tc.arguments == "" || (_try_parse_json tc.arguments).isSome)
  | none => true

/-- The value `agui_to_langchain_one` yields when it does not raise
(`none` on errors); used to state that the list conversion produces
exactly one message per convertible input, in order. -/
def agui_to_langchain_total (m : AGUIMsg) : Option BaseMessage :=
  match agui_to_langchain_one m with
  | .ok v => v
  | .error _ => none

end AgUiLangGraph

namespace AgUiLangGraph

/-! ## Theorems -/

/-- A successful lookup forces a non-empty field list. -/
theorem lookup_some_ne_nil {α β : Type} [BEq α] {k : α} {l : List (α × β)} {v : β}
    (h : List.lookup k l = some v) : l.isEmpty = false := by
  cases l with
  | nil => simp [List.lookup] at h
  | cons x xs => rfl

/-- C1: for every chunk whose content is a non-empty list whose first
element carries a non-empty `thinking` field,
`resolve_reasoning_content` returns the reasoning record whose text is
that `thinking` value and whose index is the element's `index` field
(default 0), regardless of any OpenAI-style summary in
`additional_kwargs`. -/
theorem c1_anthropic_thinking_wins (fields : List (String × Json)) (rest : List Json)
    (kwargs : Option (List (String × Json))) (t : Json)
    (ht : List.lookup "thinking" fields = some t) (htt : t.truthy = true) :
    resolve_reasoning_content ⟨.arr (.obj fields :: rest), kwargs⟩ =
      .ok (some ⟨t, "text", (List.lookup "index" fields).getD (.num 0)⟩) := by
  have hne : fields.isEmpty = false := lookup_some_ne_nil ht
  have h1 : (Json.arr (Json.obj fields :: rest)).truthy = true := by simp [Json.truthy]
  have h2 : (Json.obj fields).truthy = true := by simp [Json.truthy, hne]
  simp [resolve_reasoning_content, h1, h2, anthropicReasoning, ht, htt, dictGet]

/-- C1 witness: a concrete chunk carrying both an Anthropic-style
thinking block and an OpenAI-style summary; the thinking block wins. -/
theorem c1_anthropic_thinking_wins_witness :
    resolve_reasoning_content
      ⟨.arr [.obj [("thinking", .str "L"), ("index", .num 2)]],
       some [("reasoning", .obj [("summary", .arr [.obj [("text", .str "o")]])])]⟩ =
      .ok (some ⟨.str "L", "text", .num 2⟩) :=
  c1_anthropic_thinking_wins _ _ _ _ rfl rfl

/-- C2 is false as stated: a non-empty content list whose first element
is a *falsy* value (here the empty dict, which certainly lacks a
non-empty `thinking` field) does not short-circuit to `None`; the
function falls through to the OpenAI-style summary and returns its
text. -/
theorem c2_counterexample :
    resolve_reasoning_content
      ⟨.arr [.obj []],
       some [("reasoning",
         .obj [("summary", .arr [.obj [("text", .str "t"), ("index", .num 1)]])])]⟩ =
      .ok (some ⟨.str "t", "text", .num 1⟩) ∧
    (Except.ok (some (⟨.str "t", "text", .num 1⟩ : LangGraphReasoning)) :
        Except PyErr (Option LangGraphReasoning)) ≠ .ok none := by
  refine ⟨rfl, ?_⟩
  intro h
  simp at h

/-- C2 (amended): when the first element of a non-empty content list is
a *truthy* dict lacking a non-empty `thinking` field, the function
returns `None` without consulting the OpenAI-style summary. -/
theorem c2_truthy_first_blocks_openai (fields : List (String × Json)) (rest : List Json)
    (kwargs : Option (List (String × Json)))
    (hne : fields.isEmpty = false)
    (ht : ((List.lookup "thinking" fields).getD .null).truthy = false) :
    resolve_reasoning_content ⟨.arr (.obj fields :: rest), kwargs⟩ = .ok none := by
  have h1 : (Json.arr (Json.obj fields :: rest)).truthy = true := by simp [Json.truthy]
  have h2 : (Json.obj fields).truthy = true := by simp [Json.truthy, hne]
  cases hth : List.lookup "thinking" fields with
  | none => simp [resolve_reasoning_content, h1, h2, anthropicReasoning, hth]
  | some t =>
    rw [hth] at ht
    simp only [Option.getD] at ht
    simp [resolve_reasoning_content, h1, h2, anthropicReasoning, hth, ht]

/-- C2 witness: a truthy text block with no thinking field blocks the
OpenAI-style summary that is present in the same chunk. -/
theorem c2_truthy_first_blocks_openai_witness :
    resolve_reasoning_content
      ⟨.arr [.obj [("type", .str "text"), ("text", .str "Regular")]],
       some [("reasoning", .obj [("summary", .arr [.obj [("text", .str "o")]])])]⟩ =
      .ok none :=
  c2_truthy_first_blocks_openai _ _ _ rfl rfl

/-- C3 is false as stated for empty content: an empty-string content
chunk returns `None` up front, so the OpenAI-style summary present in
`additional_kwargs` is never consulted and no reasoning record is
produced. -/
theorem c3_counterexample :
    resolve_reasoning_content
      ⟨.str "", some [("reasoning", .obj [("summary", .arr [.obj [("text", .str "t")]])])]⟩ =
      .ok none ∧
    (Except.ok none : Except PyErr (Option LangGraphReasoning)) ≠
      .ok (some ⟨.str "t", "text", .num 0⟩) := by
  refine ⟨rfl, ?_⟩
  intro h
  simp at h

/-- C3 (amended): the OpenAI-style summary is consulted when the primary
content is a *non-empty* plain string, yielding the first entry's text
and index (default 0); empty or absent content short-circuits to `None`
without consulting the summary. -/
theorem c3_openai_branch :
    (∀ (s : String) (kwargs rfields dfields : List (String × Json)) (drest : List Json)
        (t : Json),
      s ≠ "" →
      List.lookup "reasoning" kwargs = some (.obj rfields) →
      List.lookup "summary" rfields = some (.arr (.obj dfields :: drest)) →
      List.lookup "text" dfields = some t →
      t.truthy = true →
      resolve_reasoning_content ⟨.str s, some kwargs⟩ =
        .ok (some ⟨t, "text", (List.lookup "index" dfields).getD (.num 0)⟩)) ∧
    (∀ kwargs : Option (List (String × Json)),
      resolve_reasoning_content ⟨.str "", kwargs⟩ = .ok none ∧
      resolve_reasoning_content ⟨.null, kwargs⟩ = .ok none) := by
  constructor
  · intro s kwargs rfields dfields drest t hs hr hsum ht htt
    have hdne : dfields.isEmpty = false := lookup_some_ne_nil ht
    have h1 : (Json.str s).truthy = true := by simp [Json.truthy, hs]
    have h2 : (Json.obj dfields).truthy = true := by simp [Json.truthy, hdne]
    have h3 : (Json.arr (Json.obj dfields :: drest)).truthy = true := by simp [Json.truthy]
    simp [resolve_reasoning_content, h1, h2, h3, openaiReasoning, dictGet, hr, hsum, ht, htt]
  · intro kwargs
    exact ⟨rfl, rfl⟩

/-- C3 witness: a non-empty plain-string content chunk with an
OpenAI-style summary yields that summary's text and index. -/
theorem c3_openai_branch_witness :
    resolve_reasoning_content
      ⟨.str "text response",
       some [("reasoning",
         .obj [("summary", .arr [.obj [("text", .str "Considering"), ("index", .num 2)]])])]⟩ =
      .ok (some ⟨.str "Considering", "text", .num 2⟩) :=
  c3_openai_branch.1 "text response"
    [("reasoning",
      .obj [("summary", .arr [.obj [("text", .str "Considering"), ("index", .num 2)]])])]
    [("summary", .arr [.obj [("text", .str "Considering"), ("index", .num 2)]])]
    [("text", .str "Considering"), ("index", .num 2)] [] (.str "Considering")
    (by decide) rfl rfl rfl rfl

/-- `reasoningIds` distributes over list append. -/
theorem reasoningIds_append (a b : List AGUIMsg) :
    reasoningIds (a ++ b) = reasoningIds a ++ reasoningIds b := by
  simp [reasoningIds, List.filter_append]

/-- `reasoningIds` of a singleton. -/
theorem reasoningIds_singleton (m : AGUIMsg) :
    reasoningIds [m] = if m.role = "reasoning" then [m.id] else [] := by
  by_cases h : m.role = "reasoning" <;> simp [reasoningIds, List.filter, h]

/-- The interleaving loop, started on any accumulated prefix whose
reasoning ids avoid the pending ids, extends that prefix with the
specification's interleaving. -/
theorem interleaveLoop_spec (msgs : List AGUIMsg) :
    ∀ (pending result : List AGUIMsg),
      (∀ r ∈ pending, r.id ∉ reasoningIds result) →
      (pending.map (fun r => r.id)).Nodup →
      (∀ m ∈ msgs, m.role = "reasoning" → ∀ r ∈ pending, r.id ≠ m.id) →
      interleaveLoop result msgs pending = result ++ interleaveSpecFn msgs pending := by
  induction msgs with
  | nil =>
    intro pending result _ _ _
    cases pending <;> simp [interleaveLoop, interleaveSpecFn]
  | cons msg rest ih =>
    intro pending result hdisj hnodup hmsgs
    by_cases hrole : msg.role = "reasoning"
    · cases pending with
      | nil =>
        have hstep : interleaveLoop result (msg :: rest) [] =
            interleaveLoop (result ++ [msg]) rest [] := by
          simp [interleaveLoop, hrole]
        rw [hstep, ih [] (result ++ [msg]) (by simp) (by simp)
          (fun m hm hr r hrp => absurd hrp (by simp))]
        simp [interleaveSpecFn]
      | cons r rs =>
        have hna : ¬ msg.role = "assistant" := by rw [hrole]; decide
        have hstep : interleaveLoop result (msg :: rest) (r :: rs) =
            interleaveLoop (result ++ [msg]) rest (r :: rs) := by
          simp [interleaveLoop, hrole]
        have hdisj2 : ∀ r2 ∈ (r :: rs), r2.id ∉ reasoningIds (result ++ [msg]) := by
          intro r2 hr2
          have h1 := hdisj r2 hr2
          have h2 := hmsgs msg (by simp) hrole r2 hr2
          rw [reasoningIds_append, reasoningIds_singleton]
          simp [hrole]
          exact ⟨h1, h2⟩
        rw [hstep, ih (r :: rs) (result ++ [msg]) hdisj2 hnodup
          (fun m hm => hmsgs m (List.mem_cons_of_mem _ hm))]
        have hspec : interleaveSpecFn (msg :: rest) (r :: rs) =
            msg :: interleaveSpecFn rest (r :: rs) := by
          simp [interleaveSpecFn, hna]
        rw [hspec]
        simp
    · cases pending with
      | nil =>
        have hstep : interleaveLoop result (msg :: rest) [] =
            interleaveLoop (result ++ [msg]) rest [] := by
          simp [interleaveLoop, hrole]
        rw [hstep, ih [] (result ++ [msg]) (by simp) (by simp)
          (fun m hm hr r hrp => absurd hrp (by simp))]
        simp [interleaveSpecFn]
      | cons r rs =>
        by_cases hass : msg.role = "assistant"
        · have hnotin : r.id ∉ reasoningIds result := hdisj r (by simp)
          have hstep : interleaveLoop result (msg :: rest) (r :: rs) =
              interleaveLoop (result ++ [r, msg]) rest rs := by
            simp [interleaveLoop, hrole, hass, hnotin]
          have hnodup2 : (rs.map (fun r => r.id)).Nodup := (List.nodup_cons.mp hnodup).2
          have hrid : ∀ r2 ∈ rs, r2.id ≠ r.id := by
            intro r2 hr2 heq
            have hmem : r2.id ∈ rs.map (fun r => r.id) := List.mem_map_of_mem _ hr2
            rw [heq] at hmem
            exact (List.nodup_cons.mp hnodup).1 hmem
          have hsub : ∀ x, x ∈ reasoningIds [r] → x = r.id := by
            intro x hx
            rw [reasoningIds_singleton] at hx
            by_cases hc : r.role = "reasoning"
            · simp [hc] at hx; exact hx
            · simp [hc] at hx
          have hdisj2 : ∀ r2 ∈ rs, r2.id ∉ reasoningIds (result ++ [r, msg]) := by
            intro r2 hr2 hmem
            have hmm : reasoningIds (result ++ [r, msg]) =
                reasoningIds result ++ reasoningIds [r] ++ reasoningIds [msg] := by
              rw [show result ++ [r, msg] = (result ++ [r]) ++ [msg] by simp,
                reasoningIds_append, reasoningIds_append]
            rw [hmm] at hmem
            rcases List.mem_append.mp hmem with hmem1 | hmem2
            · rcases List.mem_append.mp hmem1 with ha | hb
              · exact hdisj r2 (List.mem_cons_of_mem _ hr2) ha
              · exact hrid r2 hr2 (hsub _ hb)
            · rw [reasoningIds_singleton] at hmem2
              simp [hrole] at hmem2
          rw [hstep, ih rs (result ++ [r, msg]) hdisj2 hnodup2
            (fun m hm hr r2 hr2 =>
              hmsgs m (List.mem_cons_of_mem _ hm) hr r2 (List.mem_cons_of_mem _ hr2))]
          have hspec : interleaveSpecFn (msg :: rest) (r :: rs) =
              r :: msg :: interleaveSpecFn rest rs := by
            simp [interleaveSpecFn, hass]
          rw [hspec]
          simp
        · have hstep : interleaveLoop result (msg :: rest) (r :: rs) =
              interleaveLoop (result ++ [msg]) rest (r :: rs) := by
            simp [interleaveLoop, hrole, hass]
          have hdisj2 : ∀ r2 ∈ (r :: rs), r2.id ∉ reasoningIds (result ++ [msg]) := by
            intro r2 hr2
            rw [reasoningIds_append, reasoningIds_singleton]
            simp [hrole]
            exact hdisj r2 hr2
          rw [hstep, ih (r :: rs) (result ++ [msg]) hdisj2 hnodup
            (fun m hm => hmsgs m (List.mem_cons_of_mem _ hm))]
          have hspec : interleaveSpecFn (msg :: rest) (r :: rs) =
              msg :: interleaveSpecFn rest (r :: rs) := by
            simp [interleaveSpecFn, hass]
          rw [hspec]
          simp

/-- C4 (amended): provided the run's reasoning messages have pairwise
distinct ids that do not collide with the ids of reasoning-role
messages already in the history, the source interleaving equals the
specification's interleaving: each reasoning entry lands immediately
before the next not-yet-paired assistant message in document order, at
most one per assistant, the original order is preserved, and leftover
reasoning entries are unplaced. -/
theorem c4_interleave_spec (msgs rs : List AGUIMsg)
    (hnodup : (rs.map (fun r => r.id)).Nodup)
    (hfresh : ∀ m ∈ msgs, m.role = "reasoning" → ∀ r ∈ rs, r.id ≠ m.id) :
    interleave_reasoning_messages msgs rs = interleaveSpecFn msgs rs := by
  cases rs with
  | nil => simp [interleave_reasoning_messages, interleaveSpecFn]
  | cons r rs2 =>
    have hne : (r :: rs2).isEmpty = false := rfl
    rw [interleave_reasoning_messages, hne]
    simp only [Bool.false_eq_true, if_false]
    exact interleaveLoop_spec msgs (r :: rs2) [] (by simp [reasoningIds]) hnodup hfresh

/-- C4 witness: a history with one user and two assistant messages and
two distinct-id reasoning messages; the interleaving places the first
reasoning entry before the first assistant message and the second
before the second. -/
theorem c4_interleave_spec_witness :
    interleave_reasoning_messages
      [⟨"u", "user", .str "hi", none, none, none⟩,
       ⟨"a1", "assistant", .str "x", none, none, none⟩,
       ⟨"a2", "assistant", .str "y", none, none, none⟩]
      [⟨"r1", "reasoning", .str "p", none, none, none⟩,
       ⟨"r2", "reasoning", .str "q", none, none, none⟩] =
      [⟨"u", "user", .str "hi", none, none, none⟩,
       ⟨"r1", "reasoning", .str "p", none, none, none⟩,
       ⟨"a1", "assistant", .str "x", none, none, none⟩,
       ⟨"r2", "reasoning", .str "q", none, none, none⟩,
       ⟨"a2", "assistant", .str "y", none, none, none⟩] := by
  rw [c4_interleave_spec _ _ (by decide) (by decide)]
  rfl

/-- C4 is false as stated: two reasoning entries sharing an id (but
with different content) against two assistant messages — the second
entry is paired with the second assistant yet never inserted, because
the duplicate-id guard sees the first entry's id already in the
result.  The claim requires it immediately before the second assistant
message. -/
theorem c4_counterexample :
    interleave_reasoning_messages
      [⟨"a1", "assistant", .str "x", none, none, none⟩,
       ⟨"a2", "assistant", .str "y", none, none, none⟩]
      [⟨"X", "reasoning", .str "r1", none, none, none⟩,
       ⟨"X", "reasoning", .str "r2", none, none, none⟩] =
      [⟨"X", "reasoning", .str "r1", none, none, none⟩,
       ⟨"a1", "assistant", .str "x", none, none, none⟩,
       ⟨"a2", "assistant", .str "y", none, none, none⟩] ∧
    (⟨"X", "reasoning", .str "r2", none, none, none⟩ : AGUIMsg) ∉
      [(⟨"X", "reasoning", .str "r1", none, none, none⟩ : AGUIMsg),
       ⟨"a1", "assistant", .str "x", none, none, none⟩,
       ⟨"a2", "assistant", .str "y", none, none, none⟩] :=
  ⟨rfl, by decide⟩

/-- Lookup of a different key is unchanged by overwriting a dict entry
in place. -/
theorem lookup_map_setEntry (k key : String) (v : Json) (fields : List (String × Json))
    (h : k ≠ key) :
    List.lookup k (fields.map (fun kv => if kv.1 = key then (key, v) else kv)) =
      List.lookup k fields := by
  have hbeq : (k == key) = false := by simp [h]
  induction fields with
  | nil => rfl
  | cons kv kvs ihf =>
    by_cases hk : kv.1 = key
    · rw [List.map_cons, if_pos hk]
      simp [List.lookup, hk, hbeq, ihf]
    · rw [List.map_cons, if_neg hk]
      simp [List.lookup, ihf]

/-- Lookup of a different key is unchanged by appending a new entry. -/
theorem lookup_append_ne (k key : String) (v : Json) (fields : List (String × Json))
    (h : k ≠ key) :
    List.lookup k (fields ++ [(key, v)]) = List.lookup k fields := by
  have hbeq : (k == key) = false := by simp [h]
  induction fields with
  | nil => simp [List.lookup, hbeq]
  | cons kv kvs ihf => by_cases hk : (k == kv.1) <;> simp [List.lookup, hk, ihf]

/-- Lookup of a different key is unchanged by `setKey`. -/
theorem lookup_setKey_ne (k key : String) (v : Json) (fields : List (String × Json))
    (h : k ≠ key) :
    List.lookup k (setKey fields key v) = List.lookup k fields := by
  unfold setKey
  by_cases hex : (List.lookup key fields).isSome <;>
    simp [hex, lookup_map_setEntry k key v fields h, lookup_append_ne k key v fields h]

/-- Lookup of a different key is unchanged by `setDefault`. -/
theorem lookup_setDefault_ne (k key : String) (v : Json) (fields : List (String × Json))
    (h : k ≠ key) :
    List.lookup k (setDefault fields key v) = List.lookup k fields := by
  unfold setDefault
  by_cases hex : (List.lookup key fields).isSome <;>
    simp [hex, lookup_append_ne k key v fields h]

/-- Lookup of a different key is unchanged by a conditional `setKey`. -/
theorem lookup_ite_setKey (c : Prop) [Decidable c] (f : List (String × Json))
    (key : String) (v : Json) (h : ("data" : String) ≠ key) :
    List.lookup "data" (if c then setKey f key v else f) = List.lookup "data" f := by
  split
  · exact lookup_setKey_ne _ _ _ _ h
  · rfl

/-- Normalizing an existing envelope never touches its `data` entry. -/
theorem normalizeEnvelope_data (tcid tn : Option String) (ok : Option Bool)
    (fields : List (String × Json)) :
    List.lookup "data" (normalizeEnvelope tcid tn ok fields) = List.lookup "data" fields := by
  cases ok with
  | some b =>
    simp only [normalizeEnvelope]
    rw [lookup_setKey_ne, lookup_ite_setKey, lookup_ite_setKey, lookup_ite_setKey,
      lookup_setDefault_ne] <;> decide
  | none =>
    simp only [normalizeEnvelope]
    rw [lookup_ite_setKey, lookup_ite_setKey, lookup_ite_setKey, lookup_setDefault_ne] <;>
      decide

/-- Raw content the envelope test rejects is always wrapped fresh. -/
theorem wrap_envelope_fresh (tcid tn : Option String) (raw : Json) (ok : Option Bool)
    (h : isEnvelopeInput raw = false) :
    wrap_tool_result_envelope tcid tn raw ok = freshEnvelope tcid tn raw ok := by
  cases raw with
  | obj fields =>
    have hd : isEnvelopeDict fields = false := by simpa [isEnvelopeInput] using h
    simp [wrap_tool_result_envelope, hd]
  | str s =>
    simp only [isEnvelopeInput] at h
    simp only [wrap_tool_result_envelope]
    cases hp : _try_parse_json s with
    | none => rfl
    | some v =>
      rw [hp] at h
      cases v with
      | obj fields =>
        have hd : isEnvelopeDict fields = false := by simpa using h
        simp [hd]
      | null => rfl
      | bool b => rfl
      | num n => rfl
      | str s2 => rfl
      | arr l => rfl
  | null => rfl
  | bool b => rfl
  | num n => rfl
  | arr l => rfl

/-- C8 (amended): `wrap_tool_result_content` serializes exactly one of
two object shapes.  Content that is not already an envelope is wrapped
fresh into an object with exactly the keys `ok`, `tool`, `toolCallId`,
`data`, `meta` and `meta.format = "ag_ui_tool_result_v1"`.  Content
that is already an envelope — a dict with a `data` key and a
`toolCallId`/`tool_call_id` key, or the JSON string of one — is
normalized in place and its `data` entry is preserved verbatim, never
wrapped a second time; such a pass-through need not contain `ok` or
`tool` keys and keeps any pre-existing `meta` unchanged. -/
theorem c8_wrap_envelope_spec :
    (∀ (tcid tn : Option String) (raw : Json) (ok : Option Bool),
      isEnvelopeInput raw = false →
      wrap_tool_result_envelope tcid tn raw ok =
        .obj [("ok", .bool (resolveOkFlag ok (_normalize_tool_result_data raw))),
          ("tool", optStrJson tn), ("toolCallId", optStrJson tcid),
          ("data", _normalize_tool_result_data raw), ("meta", metaV1)]) ∧
    (∀ (tcid tn : Option String) (fields : List (String × Json)) (ok : Option Bool),
      isEnvelopeDict fields = true →
      (wrap_tool_result_envelope tcid tn (.obj fields) ok).objLookup "data" =
        List.lookup "data" fields) ∧
    (∀ (tcid tn : Option String) (s : String) (fields : List (String × Json))
        (ok : Option Bool),
      _try_parse_json s = some (.obj fields) → isEnvelopeDict fields = true →
      (wrap_tool_result_envelope tcid tn (.str s) ok).objLookup "data" =
        List.lookup "data" fields) := by
  refine ⟨?_, ?_, ?_⟩
  · intro tcid tn raw ok h
    rw [wrap_envelope_fresh tcid tn raw ok h]
    rfl
  · intro tcid tn fields ok henv
    simp [wrap_tool_result_envelope, henv, Json.objLookup, normalizeEnvelope_data]
  · intro tcid tn s fields ok hp henv
    simp [wrap_tool_result_envelope, hp, henv, Json.objLookup, normalizeEnvelope_data]

/-- C8 witness: a fresh wrap of the number 3 produces the full
envelope, and a JSON-string envelope with `data` 5 passes its data
through unchanged. -/
theorem c8_wrap_envelope_spec_witness :
    wrap_tool_result_envelope (some "tc") (some "f") (.num 3) none =
      .obj [("ok", .bool true), ("tool", .str "f"), ("toolCallId", .str "tc"),
        ("data", .num 3), ("meta", metaV1)] ∧
    (wrap_tool_result_envelope none none
        (.str "\x7b\"data\": 5, \"tool_call_id\": \"t\"\x7d") none).objLookup "data" =
      some (.num 5) := by
  constructor
  · exact c8_wrap_envelope_spec.1 (some "tc") (some "f") (.num 3) none rfl
  · rw [c8_wrap_envelope_spec.2.2 none none "\x7b\"data\": 5, \"tool_call_id\": \"t\"\x7d"
      [("data", .num 5), ("tool_call_id", .str "t")] none rfl rfl]
    rfl

/-- C8 is false as stated: wrapping a dict that is already an envelope
(`{"data": 1, "toolCallId": "t"}`) with no `ok` argument returns a JSON
string whose object has no `ok` and no `tool` key at all — the
normalized pass-through only defaults `meta`. -/
theorem c8_counterexample :
    wrap_tool_result_content none none
      (.obj [("data", .num 1), ("toolCallId", .str "t")]) none =
      "\x7b\"data\": 1, \"toolCallId\": \"t\", \"meta\": \x7b\"format\": \"ag_ui_tool_result_v1\"\x7d\x7d" ∧
    (wrap_tool_result_envelope none none
        (.obj [("data", .num 1), ("toolCallId", .str "t")]) none).objLookup "ok" = none ∧
    (wrap_tool_result_envelope none none
        (.obj [("data", .num 1), ("toolCallId", .str "t")]) none).objLookup "tool" = none :=
  ⟨rfl, rfl, rfl⟩

/-- C5: the interrupt-reason resolver returns the first interrupt's
`reason` dict field when its value is a dict containing one, the
default `human_approval` when the first value is a non-dict or a dict
without `reason`, and nothing at all for an empty interrupt list. -/
theorem c5_get_interrupt_reason_spec :
    (∀ (i : PendingInterrupt) (rest : List PendingInterrupt)
        (fields : List (String × Json)) (r : Json),
      i.value = .obj fields → List.lookup "reason" fields = some r →
      get_interrupt_reason (i :: rest) = some r) ∧
    (∀ (i : PendingInterrupt) (rest : List PendingInterrupt) (fields : List (String × Json)),
      i.value = .obj fields → List.lookup "reason" fields = none →
      get_interrupt_reason (i :: rest) = some (.str "human_approval")) ∧
    (∀ (i : PendingInterrupt) (rest : List PendingInterrupt),
      i.value.isObj = false →
      get_interrupt_reason (i :: rest) = some (.str "human_approval")) ∧
    get_interrupt_reason [] = none := by
  refine ⟨?_, ?_, ?_, rfl⟩
  · intro i rest fields r hv hr
    simp [get_interrupt_reason, hv, dictGet, hr]
  · intro i rest fields hv hr
    simp [get_interrupt_reason, hv, dictGet, hr]
  · intro i rest hv
    cases hval : i.value with
    | obj fields => rw [hval] at hv; simp [Json.isObj] at hv
    | null => simp [get_interrupt_reason, hval]
    | bool b => simp [get_interrupt_reason, hval]
    | num n => simp [get_interrupt_reason, hval]
    | str s => simp [get_interrupt_reason, hval]
    | arr l => simp [get_interrupt_reason, hval]

/-- C5 witness: the three §8 examples (custom reason, free-text value,
empty list), via the theorem's three applicable conjuncts. -/
theorem c5_get_interrupt_reason_witness :
    get_interrupt_reason [⟨"i1", .obj [("reason", .str "database_modification")]⟩] =
      some (.str "database_modification") ∧
    get_interrupt_reason [⟨"i2", .str "free text"⟩] = some (.str "human_approval") ∧
    get_interrupt_reason [] = none :=
  ⟨c5_get_interrupt_reason_spec.1 _ _ _ _ rfl rfl,
   c5_get_interrupt_reason_spec.2.2.1 _ _ rfl,
   c5_get_interrupt_reason_spec.2.2.2⟩

/-- C6: with a resume payload present, more than one pending interrupt
and no target interrupt id, the router fails with the configuration
error naming the pending count and every pending interrupt id; no
interrupt is silently picked. -/
theorem c6_ambiguous_resume_fails (pending : List PendingInterrupt) (payload : Json)
    (hp : payload.isNull = false) (hlen : 1 < pending.length) :
    detect_interrupts pending payload none =
      .error ⟨pending.length, pending.map (fun i => i.id)⟩ ∧
    ∀ i ∈ pending, i.id ∈ pending.map (fun i => i.id) := by
  constructor
  · cases pending with
    | nil => simp at hlen
    | cons first rest =>
      cases rest with
      | nil => simp at hlen
      | cons second rest2 => simp [detect_interrupts, hp]
  · intro i hi
    exact List.mem_map_of_mem _ hi

/-- C6 witness: two pending interrupts `A`, `B` and a resume without a
target id produce the error carrying the count 2 and both ids. -/
theorem c6_ambiguous_resume_fails_witness :
    detect_interrupts [⟨"A", .null⟩, ⟨"B", .null⟩] (.obj [("approved", .bool true)]) none =
      .error ⟨2, ["A", "B"]⟩ ∧ "A" ∈ ["A", "B"] ∧ "B" ∈ ["A", "B"] :=
  ⟨(c6_ambiguous_resume_fails [⟨"A", .null⟩, ⟨"B", .null⟩] (.obj [("approved", .bool true)])
      rfl (by decide)).1, by decide, by decide⟩

/-- C7: a non-null primary resume payload wins outright over the
forwarded-properties channel; that channel is consulted exactly when
the primary field is absent or its payload is null. -/
theorem c7_resume_precedence :
    (∀ (r : ResumeRequest) (fp : Json), r.payload.isNull = false →
      resolve_resume_input (some r) fp = r.payload) ∧
    (∀ (r : ResumeRequest) (fp : Json), r.payload.isNull = true →
      resolve_resume_input (some r) fp = resumeFromForwardedProps fp) ∧
    (∀ fp : Json, resolve_resume_input none fp = resumeFromForwardedProps fp) := by
  refine ⟨?_, ?_, fun fp => rfl⟩
  · intro r fp h
    simp [resolve_resume_input, h]
  · intro r fp h
    simp [resolve_resume_input, h]

/-- C7 witness: the primary payload wins even when the
forwarded-properties channel carries a competing resume payload. -/
theorem c7_resume_precedence_witness :
    resolve_resume_input (some ⟨some "int-123", .obj [("from", .str "input.resume")]⟩)
      (.obj [("command", .obj [("resume", .obj [("from", .str "forwarded_props")])])]) =
      .obj [("from", .str "input.resume")] :=
  c7_resume_precedence.1 _ _ rfl

/-- The tool-call list conversion succeeds on every list whose
argument strings are empty or JSON-parsable. -/
theorem lcToolCallsOfAgui_ok (l : List AGUIToolCall)
    (h : ∀ tc ∈ l, tc.arguments = "" ∨ (_try_parse_json tc.arguments).isSome = true) :
    ∃ v, lcToolCallsOfAgui l = Except.ok v := by
  induction l with
  | nil => exact ⟨[], rfl⟩
  | cons tc rest ih =>
    obtain ⟨v, hv⟩ := ih (fun tc2 h2 => h tc2 (List.mem_cons_of_mem _ h2))
    by_cases he : tc.arguments = ""
    · exact ⟨⟨tc.id, tc.name, .obj []⟩ :: v,
        by simp [lcToolCallsOfAgui, lcToolCallOfAgui, he, hv]⟩
    · have hp : (_try_parse_json tc.arguments).isSome = true := by
        rcases h tc (by simp) with h1 | h1
        · exact absurd h1 he
        · exact h1
      obtain ⟨args, hargs⟩ := Option.isSome_iff_exists.mp hp
      exact ⟨⟨tc.id, tc.name, args⟩ :: v,
        by simp [lcToolCallsOfAgui, lcToolCallOfAgui, he, hargs, hv]⟩

/-- `toolCallArgsOk` unpacked into a per-tool-call statement. -/
theorem toolCallArgsOk_forall (m : AGUIMsg) (ha : m.toolCallArgsOk = true) :
    ∀ l, m.tool_calls = some l →
      ∀ tc ∈ l, tc.arguments = "" ∨ (_try_parse_json tc.arguments).isSome = true := by
  intro l hl tc htc
  rw [AGUIMsg.toolCallArgsOk, hl] at ha
  have h2 := List.all_eq_true.mp ha tc htc
  simpa using h2

/-- A message of one of the four convertible roles, schema-valid and
with parsable tool-call arguments, converts to exactly one LangChain
message. -/
theorem agui_one_isSome (m : AGUIMsg)
    (hrole : m.role = "user" ∨ m.role = "assistant" ∨ m.role = "system" ∨ m.role = "tool")
    (hs : m.schemaOk = true) (ha : m.toolCallArgsOk = true) :
    ∃ b, agui_to_langchain_one m = .ok (some b) := by
  rcases hrole with h | h | h | h
  · exact ⟨_, by simp [agui_to_langchain_one, h]; try rfl⟩
  · have htcs : ∃ tcs, (match m.tool_calls with
        | some l => lcToolCallsOfAgui l
        | none => Except.ok []) = Except.ok tcs := by
      cases htc : m.tool_calls with
      | none => exact ⟨[], rfl⟩
      | some l => exact lcToolCallsOfAgui_ok l (toolCallArgsOk_forall m ha l htc)
    obtain ⟨tcs, htcs⟩ := htcs
    cases hc : m.content with
    | str s2 => exact ⟨_, by simp [agui_to_langchain_one, h, htcs, hc]; try rfl⟩
    | none => exact ⟨_, by simp [agui_to_langchain_one, h, htcs, hc]; try rfl⟩
    | parts items => simp [AGUIMsg.schemaOk, h, hc] at hs
  · cases hc : m.content with
    | str s2 => exact ⟨_, by simp [agui_to_langchain_one, h, hc]; try rfl⟩
    | none => simp [AGUIMsg.schemaOk, h, hc] at hs
    | parts items => simp [AGUIMsg.schemaOk, h, hc] at hs
  · cases hc : m.content with
    | str s2 =>
      cases hid : m.tool_call_id with
      | some tcid => exact ⟨_, by simp [agui_to_langchain_one, h, hc, hid]; try rfl⟩
      | none => simp [AGUIMsg.schemaOk, h, hc, hid] at hs
    | none => simp [AGUIMsg.schemaOk, h, hc] at hs
    | parts items => simp [AGUIMsg.schemaOk, h, hc] at hs

/-- Reasoning-role messages convert to nothing. -/
theorem agui_one_reasoning (m : AGUIMsg) (h : m.role = "reasoning") :
    agui_to_langchain_one m = .ok none := by
  simp [agui_to_langchain_one, h]

/-- Any role outside the five known ones raises the unsupported-role
error. -/
theorem agui_one_invalid (m : AGUIMsg) (h : m.role ∉ validRoles) :
    agui_to_langchain_one m =
      .error (.valueError ("Unsupported message role: " ++ m.role)) := by
  simp only [validRoles, List.mem_cons, List.not_mem_nil, or_false] at h
  push_neg at h
  obtain ⟨h1, h2, h3, h4, h5⟩ := h
  simp [agui_to_langchain_one, h1, h2, h3, h4, h5]

/-- On a valid-role, schema-valid, args-parsable message the converter
returns the (total) per-message value. -/
theorem agui_one_total_eq (m : AGUIMsg)
    (hrole : m.role ∈ validRoles) (hs : m.schemaOk = true) (ha : m.toolCallArgsOk = true) :
    agui_to_langchain_one m = .ok (agui_to_langchain_total m) := by
  by_cases hr : m.role = "reasoning"
  · have h0 := agui_one_reasoning m hr
    simp [agui_to_langchain_total, h0]
  · have h5 : m.role = "user" ∨ m.role = "assistant" ∨ m.role = "system" ∨
        m.role = "tool" ∨ m.role = "reasoning" := by
      simpa [validRoles] using hrole
    have h4 : m.role = "user" ∨ m.role = "assistant" ∨ m.role = "system" ∨
        m.role = "tool" := by
      rcases h5 with h | h | h | h | h
      · exact Or.inl h
      · exact Or.inr (Or.inl h)
      · exact Or.inr (Or.inr (Or.inl h))
      · exact Or.inr (Or.inr (Or.inr h))
      · exact absurd h hr
    obtain ⟨b, hb⟩ := agui_one_isSome m h4 hs ha
    simp [agui_to_langchain_total, hb]

/-- A message with an unsupported role anywhere in the list makes the
whole conversion fail. -/
theorem agui_messages_error_of_invalid (m : AGUIMsg) (hinv : m.role ∉ validRoles) :
    ∀ msgs : List AGUIMsg, m ∈ msgs →
      ∃ e, agui_messages_to_langchain msgs = .error e := by
  intro msgs
  induction msgs with
  | nil => intro hm; cases hm
  | cons m0 rest ih =>
    intro hm
    rcases List.mem_cons.mp hm with heq | hmem
    · subst heq
      exact ⟨_, by simp [agui_messages_to_langchain, agui_one_invalid m hinv]; try rfl⟩
    · cases h0 : agui_to_langchain_one m0 with
      | error e => exact ⟨e, by simp [agui_messages_to_langchain, h0]⟩
      | ok hd =>
        obtain ⟨e, he⟩ := ih hmem
        cases hd with
        | some b => exact ⟨e, by simp [agui_messages_to_langchain, h0, he]⟩
        | none => exact ⟨e, by simp [agui_messages_to_langchain, h0, he]⟩

/-- C9 (amended): on a message list whose entries are schema-valid and
whose assistant tool-call argument strings are empty or valid JSON,
`agui_messages_to_langchain` yields exactly one LangChain message, in
order, for each message of role user/assistant/system/tool, yields
nothing for reasoning-role messages, and a message of any other role
makes the conversion raise; a valid-role message whose tool-call
arguments fail to parse also makes it raise (see the
counterexample). -/
theorem c9_agui_messages_to_langchain_spec :
    (∀ msgs : List AGUIMsg,
      (∀ m ∈ msgs, m.role ∈ validRoles ∧ m.schemaOk = true ∧ m.toolCallArgsOk = true) →
      agui_messages_to_langchain msgs = .ok (msgs.filterMap agui_to_langchain_total)) ∧
    (∀ m : AGUIMsg, m.role = "reasoning" → agui_to_langchain_total m = none) ∧
    (∀ m : AGUIMsg,
      m.role = "user" ∨ m.role = "assistant" ∨ m.role = "system" ∨ m.role = "tool" →
      m.schemaOk = true → m.toolCallArgsOk = true →
      (agui_to_langchain_total m).isSome = true) ∧
    (∀ msgs : List AGUIMsg, (∃ m ∈ msgs, m.role ∉ validRoles) →
      ∃ e, agui_messages_to_langchain msgs = .error e) := by
  refine ⟨?_, ?_, ?_, ?_⟩
  · intro msgs
    induction msgs with
    | nil => intro _; rfl
    | cons m rest ih =>
      intro h
      have hm := h m (by simp)
      have hone := agui_one_total_eq m hm.1 hm.2.1 hm.2.2
      have hrest := ih (fun m2 h2 => h m2 (List.mem_cons_of_mem _ h2))
      cases ht : agui_to_langchain_total m with
      | some b => simp [agui_messages_to_langchain, hone, hrest, ht, List.filterMap_cons]
      | none => simp [agui_messages_to_langchain, hone, hrest, ht, List.filterMap_cons]
  · intro m h
    have h0 := agui_one_reasoning m h
    simp [agui_to_langchain_total, h0]
  · intro m h4 hs ha
    obtain ⟨b, hb⟩ := agui_one_isSome m h4 hs ha
    simp [agui_to_langchain_total, hb]
  · intro msgs h
    obtain ⟨m, hm, hinv⟩ := h
    exact agui_messages_error_of_invalid m hinv msgs hm

/-- C9 witness: a five-role history converts to four LangChain
messages in order, the reasoning entry contributing none. -/
theorem c9_agui_messages_to_langchain_spec_witness :
    agui_messages_to_langchain
      [⟨"u1", "user", .str "hi", none, none, none⟩,
       ⟨"r1", "reasoning", .str "think", none, none, none⟩,
       ⟨"a1", "assistant", .str "ok", none, some [⟨"tc1", "f", "\x7b\"x\": 1\x7d"⟩], none⟩,
       ⟨"s1", "system", .str "sys", none, none, none⟩,
       ⟨"t1", "tool", .str "res", none, none, some "tc1"⟩] =
      .ok [.human "u1" (.str "hi") none,
        .ai "a1" (.str "ok") [⟨"tc1", "f", .obj [("x", .num 1)]⟩] none,
        .system "s1" (.str "sys") none,
        .tool "t1" (.str "res") none "tc1"] ∧
    agui_to_langchain_total ⟨"r1", "reasoning", .str "think", none, none, none⟩ = none := by
  constructor
  · exact c9_agui_messages_to_langchain_spec.1 _ (by decide)
  · exact c9_agui_messages_to_langchain_spec.2.1 _ rfl

/-- C9 is false as stated: a single assistant message (a convertible
role) whose tool call carries the non-JSON arguments string `oops`
makes the conversion raise the JSON decode error instead of producing
one LangChain message. -/
theorem c9_counterexample :
    agui_messages_to_langchain
      [⟨"a1", "assistant", .none, none, some [⟨"tc1", "f", "oops"⟩], none⟩] =
      .error (.jsonDecodeError "oops") ∧
    ("assistant" : String) ∈ validRoles :=
  ⟨rfl, by decide⟩

/-- `stringify_if_needed ∘ resolve_message_content` is the identity on
plain strings (the empty string round-trips through `None`). -/
theorem stringify_resolve_str (s : String) :
    stringify_if_needed (resolve_message_content (.str s)) = s := by
  by_cases h : s = ""
  · subst h; rfl
  · have ht : (Json.str s).truthy = true := by simp [Json.truthy, h]
    simp [resolve_message_content, ht, stringify_if_needed]

/-- C10: converting an AG-UI user message with plain-string content to
LangChain and back yields a user message with the same id, role,
content and name. -/
theorem c10_user_roundtrip (idv s : String) (nm : Option String) :
    agui_messages_to_langchain [⟨idv, "user", .str s, nm, none, none⟩] =
      .ok [.human idv (.str s) nm] ∧
    langchain_messages_to_agui [.human idv (.str s) nm] =
      .ok [⟨idv, "user", .str s, nm, none, none⟩] := by
  constructor
  · rfl
  · simp [langchain_messages_to_agui, langchain_to_agui_one, stringify_resolve_str]

end AgUiLangGraph
